import Mathlib

/-!
Shallow embedding of `mongogrant/server.py` (class `Server`), the
credential-issuance broker of the mongogrant repository.

Modelling conventions:
* Timestamps are natural numbers (`datetime.utcnow()` becomes an explicit
  `now : Nat` parameter; `datetime.min` becomes `0`).
* The mongo collections `allow`, `deny`, `tokens`, `grants` are lists of
  typed documents inside a `Store`; `config["auth"]` is the list of hosts
  that have configured admin credentials.
* The external admin databases are a list of `(host, db, username)` user
  entries (`ExtDB`); `createUser` / `updateUser` / `dropUser` commands act
  on it with the failure modes the python code checks for
  (`DuplicateKeyError` on creating an existing user, `OperationFailure`
  "user not found" on updating/dropping an absent user).
* Network/authentication outcomes of opening an admin connection are an
  oracle `net : String → NetStatus`.
* Random values (uuid token strings, the generated passphrase) are passed
  in as parameters.
* Python exceptions crossing a method boundary are modelled by
  `Except.error`; a normal return value is `Except.ok`.
-/

/-- A link or fetch token entry `{token, expires}` as stored in a `tokens`
document. -/
structure Token where
  token : String
  expires : Nat
deriving DecidableEq, Repr

/-- A per-email document of the `tokens` collection:
`{email, link: [Token], fetch: [Token]}`. -/
structure TokenDoc where
  email : String
  link : List Token
  fetch : List Token
deriving DecidableEq, Repr

/-- An allow/deny rule document `{email, host, role, dbs}`. -/
structure Rule where
  email : String
  host : String
  role : String
  dbs : List String
deriving DecidableEq, Repr

/-- A grant record `{email, host, db, role, username}` of the `grants`
collection.  Note there is no password field: the record never stores a
password. -/
structure GrantRec where
  email : String
  host : String
  db : String
  role : String
  username : String
deriving DecidableEq, Repr

/-- The server's persistent state: the hosts with configured admin
credentials (the keys of `config["auth"]`) and the four mongo
collections. -/
structure Store where
  auth : List String
  allow : List Rule
  deny : List Rule
  tokens : List TokenDoc
  grants : List GrantRec
deriving DecidableEq, Repr

/-- Credentials returned by a grant: `{username, password}`. -/
structure Creds where
  username : String
  password : String
deriving DecidableEq, Repr

/-- Whether a rule document matches the mongo filter
`{email, host, dbs: db, role: {$in: roles}}` used by `can_grant`:
`dbs: db` matches when the array contains `db`, `role: {$in: roles}`
when the rule's role is one of `roles`. -/
def ruleMatches (r : Rule) (email host db : String) (roles : List String) : Bool :=
  r.email == email && r.host == host && r.dbs.contains db && roles.contains r.role

/-- `Server.can_grant(email, host, db, role)`.  Returns `false` at once if
`host` has no configured admin credentials.  Otherwise the base role
filter is `[role]`; for `"read"` the allow filter also accepts
`"readWrite"`, for `"readWrite"` the deny filter also accepts `"read"`,
and any other role raises `ValueError` (modelled as `Except.error`).
The result is: no deny rule matches, and some allow rule matches. -/
def can_grant (s : Store) (email host db role : String) : Except String Bool :=
  if s.auth.contains host = false then .ok false
  else if role == "read" then
    .ok (!(s.deny.any fun r => ruleMatches r email host db [role]) &&
         (s.allow.any fun r => ruleMatches r email host db [role, "readWrite"]))
  else if role == "readWrite" then
    .ok (!(s.deny.any fun r => ruleMatches r email host db [role, "read"]) &&
         (s.allow.any fun r => ruleMatches r email host db [role]))
  else .error "role must be one of {read,readWrite}"

/-- The spec's allow-side match: the rule matches `(email, host)`, covers
`db`, and its role is the requested role *or broader* (a request for
`read` also matches allow rules scoped to `readWrite`). -/
def allowMatchesSpec (r : Rule) (email host db role : String) : Prop :=
  r.email = email ∧ r.host = host ∧ db ∈ r.dbs ∧
    (r.role = role ∨ (role = "read" ∧ r.role = "readWrite"))

/-- The spec's deny-side match: the rule matches `(email, host)`, covers
`db`, and its role is the requested role *or narrower* (a request for
`readWrite` also matches deny rules scoped to `read`). -/
def denyMatchesSpec (r : Rule) (email host db role : String) : Prop :=
  r.email = email ∧ r.host = host ∧ db ∈ r.dbs ∧
    (r.role = role ∨ (role = "readWrite" ∧ r.role = "read"))

theorem ruleMatches_iff (r : Rule) (email host db : String) (roles : List String) :
    ruleMatches r email host db roles = true ↔
      r.email = email ∧ r.host = host ∧ db ∈ r.dbs ∧ r.role ∈ roles := by
  simp [ruleMatches, and_assoc]

/-- **C1.** For a host with configured admin credentials and a role in
`{read, readWrite}`, `can_grant` returns `true` iff some allow rule
matches with the role widened upward and no deny rule matches with the
role widened downward. -/
theorem can_grant_iff_rules (s : Store) (email host db role : String)
    (hhost : host ∈ s.auth)
    (hrole : role = "read" ∨ role = "readWrite") :
    can_grant s email host db role = .ok true ↔
      ((∃ r ∈ s.allow, allowMatchesSpec r email host db role) ∧
       ¬ ∃ r ∈ s.deny, denyMatchesSpec r email host db role) := by
  have hne : ¬ (s.auth.contains host = false) := by simp [hhost]
  rcases hrole with h | h <;> subst h
  · unfold can_grant
    rw [if_neg hne, if_pos (show (("read" : String) == "read") = true from rfl),
        Except.ok.injEq, Bool.and_eq_true, Bool.not_eq_true', List.any_eq_false]
    simp only [List.any_eq_true, ruleMatches_iff, Bool.eq_false_iff, ne_eq,
      allowMatchesSpec, denyMatchesSpec, List.mem_cons, List.not_mem_nil]
    simp
    aesop
  · unfold can_grant
    rw [if_neg hne, if_neg (by decide),
        if_pos (show (("readWrite" : String) == "readWrite") = true from rfl),
        Except.ok.injEq, Bool.and_eq_true, Bool.not_eq_true', List.any_eq_false]
    simp only [List.any_eq_true, ruleMatches_iff, Bool.eq_false_iff, ne_eq,
      allowMatchesSpec, denyMatchesSpec, List.mem_cons, List.not_mem_nil]
    simp
    aesop

/-- Witness for C1 at a concrete input: one allow rule for `readWrite`
covering db `d`, no deny rules, request for `read` — granted. -/
theorem can_grant_iff_rules_witness :
    can_grant ⟨["h"], [⟨"e", "h", "readWrite", ["d"]⟩], [], [], []⟩ "e" "h" "d" "read" =
      .ok true :=
  (can_grant_iff_rules ⟨["h"], [⟨"e", "h", "readWrite", ["d"]⟩], [], [], []⟩
      "e" "h" "d" "read" (by simp) (Or.inl rfl)).2
    ⟨⟨⟨"e", "h", "readWrite", ["d"]⟩, by simp, by
        simp [allowMatchesSpec]⟩, by simp [denyMatchesSpec]⟩

/-- **C6.** If the host has no configured admin credentials, `can_grant`
returns `false` for every email, db and arbitrary role value: the rules
are never consulted and no exception is raised. -/
theorem can_grant_false_of_host_not_configured
    (s : Store) (email host db role : String)
    (h : host ∉ s.auth) :
    can_grant s email host db role = .ok false := by
  simp [can_grant, h]

/-- Witness for C6 at a concrete input: empty auth map, a role value
outside `{read, readWrite}`, and rules that would otherwise allow. -/
theorem can_grant_false_of_host_not_configured_witness :
    can_grant ⟨[], [⟨"e", "h", "readWrite", ["d"]⟩], [], [], []⟩ "e" "h" "d" "weird" =
      .ok false :=
  can_grant_false_of_host_not_configured
    ⟨[], [⟨"e", "h", "readWrite", ["d"]⟩], [], [], []⟩ "e" "h" "d" "weird" (by simp)

/-- Whether a `tokens` document matches the mongo filter of
`Server.delete_expired_tokens`:
`{$or: [{link.expires: {$lte: now}}, {fetch.expires: {$lte: now}},
{link: [], fetch: []}]}`. -/
def sweepFilterMatches (d : TokenDoc) (now : Nat) : Bool :=
  d.link.any (fun t => t.expires ≤ now) || d.fetch.any (fun t => t.expires ≤ now) ||
    (d.link.isEmpty && d.fetch.isEmpty)

/-- The per-document body of `Server.delete_expired_tokens`: a document
with both arrays empty is deleted (`none`); otherwise entries with
`expires > now` are kept and the document is deleted if both filtered
arrays are empty, else replaced by `{email, link, fetch}`. -/
def sweepDoc (d : TokenDoc) (now : Nat) : Option TokenDoc :=
  if d.link.isEmpty && d.fetch.isEmpty then none
  else
    let link := d.link.filter fun t => decide (t.expires > now)
    let fetch := d.fetch.filter fun t => decide (t.expires > now)
    if link.isEmpty && fetch.isEmpty then none
    else some ⟨d.email, link, fetch⟩

/-- `Server.delete_expired_tokens()`: documents matching the filter are
processed by `sweepDoc` (via `DeleteOne`/`ReplaceOne` bulk requests);
documents not matching the filter are left untouched. -/
def delete_expired_tokens (s : Store) (now : Nat) : Store :=
  { s with tokens := s.tokens.filterMap fun d =>
      if sweepFilterMatches d now then sweepDoc d now else some d }

/-- The spec's description of the sweep: for every document drop any
link/fetch entries with `expires <= now`, then delete every document
whose two arrays are (or thereby become) empty. -/
def sweepSpec (docs : List TokenDoc) (now : Nat) : List TokenDoc :=
  (docs.map fun d => TokenDoc.mk d.email
      (d.link.filter fun t => decide (t.expires > now))
      (d.fetch.filter fun t => decide (t.expires > now))).filter
    fun d => !(d.link.isEmpty && d.fetch.isEmpty)

/-- The single-document effect of the sweep's find-then-process: a
document either matches the filter and goes through `sweepDoc`, or is
left untouched.  Both amount to: filter both arrays to the unexpired
entries, then drop the document if both filtered arrays are empty. -/
theorem sweep_step (d : TokenDoc) (now : Nat) :
    (if sweepFilterMatches d now = true then sweepDoc d now else some d) =
      (if ((d.link.filter fun t => decide (t.expires > now)).isEmpty &&
           (d.fetch.filter fun t => decide (t.expires > now)).isEmpty) = true
        then none
        else some ⟨d.email, d.link.filter fun t => decide (t.expires > now),
          d.fetch.filter fun t => decide (t.expires > now)⟩) := by
  by_cases hm : sweepFilterMatches d now = true
  · rw [if_pos hm]
    simp only [sweepDoc]
    by_cases h0 : (d.link.isEmpty && d.fetch.isEmpty) = true
    · rw [if_pos h0]
      rw [Bool.and_eq_true, List.isEmpty_iff, List.isEmpty_iff] at h0
      simp [h0.1, h0.2]
    · rw [if_neg h0]
  · rw [if_neg hm]
    simp only [sweepFilterMatches, Bool.or_eq_false_iff, Bool.and_eq_false_iff,
      List.any_eq_false, Bool.not_eq_true] at hm
    obtain ⟨⟨hl, hf⟩, he⟩ := hm
    have hl' : d.link.filter (fun t => decide (t.expires > now)) = d.link :=
      List.filter_eq_self.2 fun t ht => by
        simpa using Nat.lt_of_not_le (by simpa using hl t ht)
    have hf' : d.fetch.filter (fun t => decide (t.expires > now)) = d.fetch :=
      List.filter_eq_self.2 fun t ht => by
        simpa using Nat.lt_of_not_le (by simpa using hf t ht)
    rw [hl', hf']
    have : (d.link.isEmpty && d.fetch.isEmpty) = false := by
      rcases he with h | h <;> simp [h]
    rw [if_neg (by simp [this])]

theorem sweep_tokens_eq_sweepSpec (docs : List TokenDoc) (now : Nat) :
    (docs.filterMap fun d =>
        if sweepFilterMatches d now = true then sweepDoc d now else some d) =
      sweepSpec docs now := by
  induction docs with
  | nil => rfl
  | cons d ds ih =>
    rw [List.filterMap_cons, sweep_step]
    by_cases h : ((d.link.filter fun t => decide (t.expires > now)).isEmpty &&
        (d.fetch.filter fun t => decide (t.expires > now)).isEmpty) = true
    · rw [if_pos h]
      simp only [sweepSpec, List.map_cons, List.filter_cons] at ih ⊢
      rw [if_neg (by simp [h]), ih]
    · rw [if_neg h]
      simp only [sweepSpec, List.map_cons, List.filter_cons] at ih ⊢
      rw [if_pos (by simp [h]), ih]

theorem sweepSpec_mem (docs : List TokenDoc) (now : Nat) (d : TokenDoc)
    (hd : d ∈ sweepSpec docs now) :
    (∀ t ∈ d.link, t.expires > now) ∧ (∀ t ∈ d.fetch, t.expires > now) ∧
      (d.link.isEmpty && d.fetch.isEmpty) = false := by
  simp only [sweepSpec, List.mem_filter, List.mem_map] at hd
  obtain ⟨⟨d0, _, rfl⟩, hne⟩ := hd
  refine ⟨?_, ?_, by simp only [Bool.not_eq_true'] at hne; exact hne⟩
  · intro t ht
    simpa using (List.mem_filter.1 ht).2
  · intro t ht
    simpa using (List.mem_filter.1 ht).2

theorem sweepSpec_fixed (docs : List TokenDoc) (now : Nat)
    (h : ∀ d ∈ docs, (∀ t ∈ d.link, t.expires > now) ∧
      (∀ t ∈ d.fetch, t.expires > now) ∧
      (d.link.isEmpty && d.fetch.isEmpty) = false) :
    sweepSpec docs now = docs := by
  induction docs with
  | nil => rfl
  | cons d ds ih =>
    obtain ⟨h1, h2, h3⟩ := h d (List.mem_cons_self _ _)
    have hl : d.link.filter (fun t => decide (t.expires > now)) = d.link :=
      List.filter_eq_self.2 fun t ht => by simpa using h1 t ht
    have hf : d.fetch.filter (fun t => decide (t.expires > now)) = d.fetch :=
      List.filter_eq_self.2 fun t ht => by simpa using h2 t ht
    have ih' := ih fun d' hd' => h d' (List.mem_cons_of_mem _ hd')
    simp only [sweepSpec, List.map_cons, List.filter_cons, hl, hf] at ih' ⊢
    rw [if_pos (by simp [h3])]
    rw [ih']

/-- **C10.** The expired-token sweep removes exactly the entries with
`expires <= now` and deletes exactly the documents whose two arrays are
(or thereby become) empty; and it is idempotent: running it again
immediately (same `now`) changes nothing. -/
theorem delete_expired_tokens_spec (s : Store) (now : Nat) :
    (delete_expired_tokens s now).tokens = sweepSpec s.tokens now ∧
    delete_expired_tokens (delete_expired_tokens s now) now =
      delete_expired_tokens s now := by
  obtain ⟨A, L, D, T, G⟩ := s
  refine ⟨sweep_tokens_eq_sweepSpec T now, ?_⟩
  simp only [delete_expired_tokens, Store.mk.injEq, true_and, and_true]
  rw [sweep_tokens_eq_sweepSpec, sweep_tokens_eq_sweepSpec T now]
  exact sweepSpec_fixed _ now fun d hd => sweepSpec_mem _ now d hd

/-- The `$push`-with-upsert of `Server.generate_tokens`:
`update_one({email}, {$push: {fetch: ft, link: lt}}, upsert=True)` —
append both tokens to the arrays of the first document with this email,
or insert a fresh document if none exists. -/
def pushTokens (docs : List TokenDoc) (email : String) (lt ft : Token) : List TokenDoc :=
  match docs with
  | [] => [⟨email, [lt], [ft]⟩]
  | d :: ds =>
    if d.email == email then ⟨d.email, d.link ++ [lt], d.fetch ++ [ft]⟩ :: ds
    else d :: pushTokens ds email lt ft

/-- `Server.generate_tokens(email, link_expires, fetch_expires)`.
The expiry strings `"<n> <u>"` are modelled by the time deltas
`linkTTL`/`fetchTTL` they parse to; the random `uuid4().hex` token
strings are the parameters `linkTok`/`fetchTok`.  If no allow rule
exists for the email, returns `False` and changes nothing.  Otherwise
the link token expires at `now + linkTTL`, the fetch token at
`link_expires + fetchTTL`, both are pushed to the email's document
(upsert), expired tokens are then cleaned up, and `True` is returned. -/
def generate_tokens (s : Store) (now : Nat) (email : String)
    (linkTTL fetchTTL : Nat) (linkTok fetchTok : String) : Bool × Store :=
  if (s.allow.any fun r => r.email == email) = false then (false, s)
  else
    let linkExpires := now + linkTTL
    let fetchExpires := linkExpires + fetchTTL
    let newTokens :=
      pushTokens s.tokens email ⟨linkTok, linkExpires⟩ ⟨fetchTok, fetchExpires⟩
    let s1 : Store := { s with tokens := newTokens }
    (true, delete_expired_tokens s1 now)

/-- Extensional description of `pushTokens`: either the first document
with the email gets exactly one new entry appended to each array, or no
document has the email and a fresh one-entry document is appended. -/
theorem pushTokens_spec (docs : List TokenDoc) (email : String) (lt ft : Token) :
    (∃ pre d post, docs = pre ++ d :: post ∧
      (∀ d' ∈ pre, d'.email ≠ email) ∧ d.email = email ∧
      pushTokens docs email lt ft =
        pre ++ (⟨d.email, d.link ++ [lt], d.fetch ++ [ft]⟩ : TokenDoc) :: post) ∨
    ((∀ d' ∈ docs, d'.email ≠ email) ∧
      pushTokens docs email lt ft = docs ++ [⟨email, [lt], [ft]⟩]) := by
  induction docs with
  | nil => exact Or.inr ⟨by simp, rfl⟩
  | cons d ds ih =>
    by_cases h : (d.email == email) = true
    · refine Or.inl ⟨[], d, ds, rfl, by simp, by simpa using h, ?_⟩
      simp [pushTokens, h]
    · have hne : d.email ≠ email := by simpa using h
      rcases ih with ⟨pre, d0, post, hsplit, hpre, hd0, heq⟩ | ⟨hall, heq⟩
      · refine Or.inl ⟨d :: pre, d0, post, by simp [hsplit], ?_, hd0, ?_⟩
        · intro d' hd'
          rcases List.mem_cons.1 hd' with rfl | hd'
          · exact hne
          · exact hpre d' hd'
        · have hstep : pushTokens (d :: ds) email lt ft =
              d :: pushTokens ds email lt ft := by
            simp [pushTokens, h]
          rw [hstep, heq]
          simp
      · refine Or.inr ⟨?_, ?_⟩
        · intro d' hd'
          rcases List.mem_cons.1 hd' with rfl | hd'
          · exact hne
          · exact hall d' hd'
        · have hstep : pushTokens (d :: ds) email lt ft =
              d :: pushTokens ds email lt ft := by
            simp [pushTokens, h]
          rw [hstep, heq]
          simp

/-- **C5.** `generate_tokens` returns `false` and changes nothing when no
allow rule exists for the email; otherwise it appends exactly one new
link token expiring at `now + linkTTL` and one new fetch token expiring
at `now + linkTTL + fetchTTL` to the email's single document (upserting
it), runs the expired-token cleanup on the result, and returns `true`. -/
theorem generate_tokens_spec (s : Store) (now : Nat) (email : String)
    (linkTTL fetchTTL : Nat) (linkTok fetchTok : String) :
    ((∀ r ∈ s.allow, r.email ≠ email) →
      generate_tokens s now email linkTTL fetchTTL linkTok fetchTok = (false, s)) ∧
    ((∃ r ∈ s.allow, r.email = email) →
      ∃ docs1 : List TokenDoc,
        ((∃ pre d post, s.tokens = pre ++ d :: post ∧
            (∀ d' ∈ pre, d'.email ≠ email) ∧ d.email = email ∧
            docs1 = pre ++ (⟨d.email, d.link ++ [⟨linkTok, now + linkTTL⟩],
              d.fetch ++ [⟨fetchTok, now + linkTTL + fetchTTL⟩]⟩ : TokenDoc) :: post) ∨
         ((∀ d' ∈ s.tokens, d'.email ≠ email) ∧
            docs1 = s.tokens ++ [⟨email, [⟨linkTok, now + linkTTL⟩],
              [⟨fetchTok, now + linkTTL + fetchTTL⟩]⟩])) ∧
        generate_tokens s now email linkTTL fetchTTL linkTok fetchTok =
          (true, delete_expired_tokens { s with tokens := docs1 } now)) := by
  constructor
  · intro h
    have hany : (s.allow.any fun r => r.email == email) = false :=
      List.any_eq_false.2 fun r hr => by simpa using h r hr
    simp [generate_tokens, hany]
  · intro h
    have hany : (s.allow.any fun r => r.email == email) = true :=
      List.any_eq_true.2 (by obtain ⟨r, hr, he⟩ := h; exact ⟨r, hr, by simpa using he⟩)
    refine ⟨pushTokens s.tokens email ⟨linkTok, now + linkTTL⟩
        ⟨fetchTok, now + linkTTL + fetchTTL⟩, ?_, ?_⟩
    · exact pushTokens_spec s.tokens email _ _
    · simp [generate_tokens, hany]

/-- Witness for C5: a store with an allow rule for the email and one
existing token document for it; the tokens are appended and cleanup runs. -/
theorem generate_tokens_spec_witness :
    (∀ r ∈ ([] : List Rule), r.email ≠ "e") ∧
    (∃ r ∈ [(⟨"e", "h", "read", ["d"]⟩ : Rule)], r.email = "e") ∧
    ∃ docs1 : List TokenDoc,
      ((∃ pre d post,
          ([⟨"e", [⟨"lt0", 50⟩], [⟨"ft0", 60⟩]⟩] : List TokenDoc) = pre ++ d :: post ∧
          (∀ d' ∈ pre, d'.email ≠ "e") ∧ d.email = "e" ∧
          docs1 = pre ++ (⟨d.email, d.link ++ [⟨"lt1", 10 + 5⟩],
            d.fetch ++ [⟨"ft1", 10 + 5 + 7⟩]⟩ : TokenDoc) :: post) ∨
       ((∀ d' ∈ ([⟨"e", [⟨"lt0", 50⟩], [⟨"ft0", 60⟩]⟩] : List TokenDoc), d'.email ≠ "e") ∧
          docs1 = [⟨"e", [⟨"lt0", 50⟩], [⟨"ft0", 60⟩]⟩] ++
            [⟨"e", [⟨"lt1", 10 + 5⟩], [⟨"ft1", 10 + 5 + 7⟩]⟩])) ∧
      generate_tokens ⟨["h"], [⟨"e", "h", "read", ["d"]⟩], [], [⟨"e", [⟨"lt0", 50⟩], [⟨"ft0", 60⟩]⟩], []⟩
          10 "e" 5 7 "lt1" "ft1" =
        (true, delete_expired_tokens
          ⟨["h"], [⟨"e", "h", "read", ["d"]⟩], [], docs1, []⟩ 10) :=
  ⟨by simp,
   ⟨⟨"e", "h", "read", ["d"]⟩, by simp, rfl⟩,
   (generate_tokens_spec ⟨["h"], [⟨"e", "h", "read", ["d"]⟩], [],
      [⟨"e", [⟨"lt0", 50⟩], [⟨"ft0", 60⟩]⟩], []⟩ 10 "e" 5 7 "lt1" "ft1").2
     ⟨⟨"e", "h", "read", ["d"]⟩, by simp, rfl⟩⟩

/-- Outcome of trying to open and probe an admin connection to a host:
the probe succeeds, authentication fails (`pymongo.errors.OperationFailure`),
or the host is unreachable
(`pymongo.errors.ServerSelectionTimeoutError`). -/
inductive NetStatus where
  | ok
  | authFail
  | unreachable
deriving DecidableEq, Repr

/-- What a call to `Server.admin_client(host)` does, distinguishing a
normally returned client, a *raised* `ConfigError`, a *returned*
`ConfigError` object (the value the caller receives in place of a
client), and a raised `KeyError` (host missing from `config["auth"]`). -/
inductive AdminRet where
  | client (host : String)
  | raisedConfigError (msg : String)
  | returnedConfigError (msg : String)
  | raisedKeyError
deriving DecidableEq, Repr

/-- `Server.admin_client(host)` together with the `self._admin_client`
cache (the list of hosts with a cached client).  A cached host returns
its client without reconnecting or probing.  Otherwise the client is
built from `config["auth"][host]` (raising `KeyError` if absent) and
probed with `server_info()`: on success it is cached and returned; on
`OperationFailure` a `ConfigError` is **raised**; on
`ServerSelectionTimeoutError` a `ConfigError` is **returned** (the
python code says `return ConfigError(...)`, not `raise`). -/
def admin_client (cache auth : List String) (net : String → NetStatus)
    (host : String) : AdminRet × List String :=
  if cache.contains host then (.client host, cache)
  else if auth.contains host = false then (.raisedKeyError, cache)
  else match net host with
    | .ok => (.client host, host :: cache)
    | .authFail => (.raisedConfigError "Auth error", cache)
    | .unreachable => (.returnedConfigError "Cannot connect", cache)

/-- What `self.admin_client(host)[db]` amounts to for a caller
(`grant`, `revoke_grants`): a usable connection and the updated cache,
or the python exception that reaches the caller.  Subscripting a
*returned* `ConfigError` object with `[db]` raises `TypeError`. -/
def adminAccess (cache auth : List String) (net : String → NetStatus)
    (host : String) : Except String (List String) :=
  match admin_client cache auth net host with
  | (.client _, cache') => .ok cache'
  | (.raisedConfigError m, _) => .error ("ConfigError: " ++ m)
  | (.returnedConfigError _, _) => .error "TypeError: ConfigError is not subscriptable"
  | (.raisedKeyError, _) => .error "KeyError"

/-- **C8 (code bug).** On the first (uncached) use for a host with
configured credentials, `admin_client` probes the connection; when
authentication fails it raises `ConfigError`, but when the host is
unreachable it *returns* the `ConfigError` object as its result instead
of failing — `server.py` line 189 reads `return ConfigError(...)` where
its own docstring promises `Raises: ConfigError: ... cannot connect to
host`.  A cached host is returned without any probing. -/
theorem admin_client_unreachable_returns_error :
    admin_client [] ["h"] (fun _ => NetStatus.unreachable) "h" =
      (.returnedConfigError "Cannot connect", []) ∧
    admin_client [] ["h"] (fun _ => NetStatus.authFail) "h" =
      (.raisedConfigError "Auth error", []) ∧
    admin_client ["h"] ["h"] (fun _ => NetStatus.unreachable) "h" =
      (.client "h", ["h"]) := by
  refine ⟨rfl, rfl, rfl⟩

/-- The external admin databases: the set of existing database users,
as `(host, db, username)` entries. -/
def ExtDB := List (String × String × String)
deriving DecidableEq, Repr

/-- Database user commands issued through an admin connection. -/
inductive DbCmd where
  | createUser
  | updateUser
  | dropUser
deriving DecidableEq, Repr

/-- Failure modes of the user commands distinguished by `server.py`:
`DuplicateKeyError` (create an existing user) and `OperationFailure`
"User u@db not found" (update/drop an absent user). -/
inductive CmdError where
  | duplicateKey
  | userNotFound
deriving DecidableEq, Repr

/-- Semantics of `d.command(cmd, username, ...)` against the external
admin database of `(host, db)`. -/
def runCmd (ext : ExtDB) (host db : String) (cmd : DbCmd) (username : String) :
    Except CmdError ExtDB :=
  let key : String × String × String := (host, db, username)
  match cmd with
  | .createUser =>
      if (List.contains ext key) then .error .duplicateKey else .ok (key :: ext)
  | .updateUser =>
      if (List.contains ext key) then .ok ext else .error .userNotFound
  | .dropUser =>
      if (List.contains ext key) then .ok (ext.filter fun k => !(k == key))
      else .error .userNotFound

/-- The deterministic username of `Server.grant`:
`"{}_{}".format("_".join(email.split('@')), role)`. -/
def usernameFor (email role : String) : String :=
  String.intercalate "_" (email.splitOn "@") ++ "_" ++ role

/-- Whether a grant record matches the filter
`{email, host, db, role}` of `Server.grant`. -/
def grantRecMatches (g : GrantRec) (email host db role : String) : Bool :=
  g.email == email && g.host == host && g.db == db && g.role == role

/-- `update_one(grant_filter, {$set: {username}}, upsert=True)`: set the
username on the first matching record, or append a new record if none
matches. -/
def upsertGrant (grants : List GrantRec) (email host db role username : String) :
    List GrantRec :=
  match grants with
  | [] => [⟨email, host, db, role, username⟩]
  | g :: gs =>
    if grantRecMatches g email host db role then
      ⟨g.email, g.host, g.db, g.role, username⟩ :: gs
    else g :: upsertGrant gs email host db role username

/-- The mutable state a grant flow touches: the mongogrant store, the
external admin databases, and the per-process admin-client cache. -/
structure GrantState where
  store : Store
  ext : ExtDB
  cache : List String
deriving DecidableEq, Repr

/-- `Server.grant(email, host, db, role)`.  Refuses (returns `none`) if
`can_grant` is false; a `ValueError` from `can_grant` propagates.  Else:
the command is `updateUser` when a grant record matches, `createUser`
otherwise; the admin connection for `host` is obtained (exceptions
propagate); the command runs with the deterministic username and the
fresh `password`.  On `OperationFailure` "user not found" the command is
retried once as `createUser` (a second failure propagates); on
`DuplicateKeyError` the grant is aborted with `none`.  On success the
grant record is upserted with the username only, and
`{username, password}` is returned. -/
def grant (st : GrantState) (net : String → NetStatus)
    (email host db role password : String) :
    Except String (Option Creds × GrantState) :=
  match can_grant st.store email host db role with
  | .error e => .error e
  | .ok false => .ok (none, st)
  | .ok true =>
    let command : DbCmd :=
      if st.store.grants.any (fun g => grantRecMatches g email host db role)
      then .updateUser else .createUser
    match adminAccess st.cache st.store.auth net host with
    | .error e => .error e
    | .ok cache' =>
      let username := usernameFor email role
      let finish : ExtDB → Except String (Option Creds × GrantState) := fun ext' =>
        .ok (some ⟨username, password⟩,
          ⟨{ st.store with
              grants := upsertGrant st.store.grants email host db role username },
            ext', cache'⟩)
      match runCmd st.ext host db command username with
      | .ok ext' => finish ext'
      | .error .userNotFound =>
        match runCmd st.ext host db .createUser username with
        | .ok ext' => finish ext'
        | .error _ => .error "OperationFailure"
      | .error .duplicateKey => .ok (none, ⟨st.store, st.ext, cache'⟩)

/-- `Server.email_from_fetch_token(token, expired_okay)`: the email of
the first `tokens` document whose `fetch` array has an entry with this
token and `expires >= now` (or `>= datetime.min`, i.e. any expiry, when
`expired_okay`); `None` when no document matches. -/
def email_from_fetch_token (s : Store) (now : Nat) (token : String)
    (expired_okay : Bool) : Option String :=
  let when := if expired_okay then 0 else now
  (s.tokens.find? fun d =>
    d.fetch.any fun t => t.token == token && decide (t.expires ≥ when)).map
    TokenDoc.email

/-- `Server.grant_with_token(token, host, db, role)`: resolve the email
from the fetch token (not accepting expired tokens); if no email (or a
falsy empty-string email) is found, return `None`; else delegate to
`grant`. -/
def grant_with_token (st : GrantState) (net : String → NetStatus) (now : Nat)
    (token host db role password : String) :
    Except String (Option Creds × GrantState) :=
  match email_from_fetch_token st.store now token false with
  | none => .ok (none, st)
  | some email =>
    if email == "" then .ok (none, st)
    else grant st net email host db role password

theorem can_grant_set_grants (s : Store) (g : List GrantRec)
    (email host db role : String) :
    can_grant { s with grants := g } email host db role =
      can_grant s email host db role := rfl

theorem adminAccess_ok (cache auth : List String) (net : String → NetStatus)
    (host : String) (hauth : auth.contains host = true)
    (hnet : net host = NetStatus.ok) :
    adminAccess cache auth net host =
      .ok (if cache.contains host then cache else host :: cache) := by
  by_cases hc : host ∈ cache
  · simp [adminAccess, admin_client, hc]
  · simp [adminAccess, admin_client, hc,
      show host ∈ auth by simpa using hauth, hnet]

theorem cacheAfter_contains (cache : List String) (host : String) :
    (if cache.contains host then cache else host :: cache).contains host = true := by
  by_cases hc : host ∈ cache
  · simp [hc]
  · simp [hc]

theorem upsertGrant_no_match (gs : List GrantRec)
    (email host db role username : String)
    (h : ∀ g ∈ gs, grantRecMatches g email host db role = false) :
    upsertGrant gs email host db role username =
      gs ++ [⟨email, host, db, role, username⟩] := by
  induction gs with
  | nil => rfl
  | cons g gs ih =>
    rw [upsertGrant, if_neg (by simp [h g (List.mem_cons_self _ _)])]
    rw [ih fun g' hg' => h g' (List.mem_cons_of_mem _ hg')]
    simp

theorem upsertGrant_append_self (gs : List GrantRec)
    (email host db role u0 u : String)
    (h : ∀ g ∈ gs, grantRecMatches g email host db role = false) :
    upsertGrant (gs ++ [⟨email, host, db, role, u0⟩]) email host db role u =
      gs ++ [⟨email, host, db, role, u⟩] := by
  induction gs with
  | nil =>
    rw [List.nil_append, upsertGrant, if_pos (by simp [grantRecMatches])]
    rfl
  | cons g gs ih =>
    rw [List.cons_append, upsertGrant,
      if_neg (by simp [h g (List.mem_cons_self _ _)])]
    rw [ih fun g' hg' => h g' (List.mem_cons_of_mem _ hg')]
    simp

/-- **C9.** When a grant is permitted, the connection works, and no prior
record or external user exists for the tuple, granting twice returns the
same deterministic username (derived from email and role) with the two
fresh passwords, and leaves exactly one grant record for the tuple —
a record that holds the username and no password. -/
theorem grant_twice_deterministic (s : Store) (ext : ExtDB) (cache : List String)
    (net : String → NetStatus) (email host db role p1 p2 : String)
    (hcan : can_grant s email host db role = .ok true)
    (hnet : net host = NetStatus.ok)
    (hno : (s.grants.any fun g => grantRecMatches g email host db role) = false)
    (hext : List.contains ext (host, db, usernameFor email role) = false) :
    ∃ st1 st2 : GrantState,
      grant ⟨s, ext, cache⟩ net email host db role p1 =
        .ok (some ⟨usernameFor email role, p1⟩, st1) ∧
      grant st1 net email host db role p2 =
        .ok (some ⟨usernameFor email role, p2⟩, st2) ∧
      st2.store.grants.filter (fun g => grantRecMatches g email host db role) =
        [⟨email, host, db, role, usernameFor email role⟩] := by
  have hauth : s.auth.contains host = true := by
    by_cases hc : host ∈ s.auth
    · simpa using hc
    · simp [can_grant, hc] at hcan
  have hno' : ∀ g ∈ s.grants, grantRecMatches g email host db role = false :=
    fun g hg => Bool.eq_false_iff.2 (List.any_eq_false.1 hno g hg)
  have hmatch : grantRecMatches
      (⟨email, host, db, role, usernameFor email role⟩ : GrantRec)
      email host db role = true := by simp [grantRecMatches]
  have hstep1 : grant ⟨s, ext, cache⟩ net email host db role p1 =
      .ok (some ⟨usernameFor email role, p1⟩,
        ⟨{ s with grants :=
            s.grants ++ [⟨email, host, db, role, usernameFor email role⟩] },
          (host, db, usernameFor email role) :: ext,
          if cache.contains host then cache else host :: cache⟩) := by
    simp only [grant, hcan, hno, Bool.false_eq_true, if_false,
      adminAccess_ok cache s.auth net host hauth hnet, runCmd, hext,
      Bool.false_eq_true, if_false,
      upsertGrant_no_match s.grants email host db role (usernameFor email role) hno']
  refine ⟨⟨{ s with grants :=
        s.grants ++ [⟨email, host, db, role, usernameFor email role⟩] },
      (host, db, usernameFor email role) :: ext,
      if cache.contains host then cache else host :: cache⟩,
    ⟨{ s with grants :=
        s.grants ++ [⟨email, host, db, role, usernameFor email role⟩] },
      (host, db, usernameFor email role) :: ext,
      if cache.contains host then cache else host :: cache⟩,
    hstep1, ?_, ?_⟩
  · have hcan2 : can_grant
        { s with grants :=
          s.grants ++ [⟨email, host, db, role, usernameFor email role⟩] }
        email host db role = .ok true := by
      rw [can_grant_set_grants]; exact hcan
    have hyes : ((s.grants ++
        [(⟨email, host, db, role, usernameFor email role⟩ : GrantRec)]).any
          fun g => grantRecMatches g email host db role) = true := by
      simp only [List.any_append]
      simp [hmatch]
    have hin : List.contains ((host, db, usernameFor email role) :: ext)
        (host, db, usernameFor email role) = true := by simp
    have hadmin2 : adminAccess (if cache.contains host then cache else host :: cache)
        s.auth net host =
        .ok (if cache.contains host then cache else host :: cache) := by
      rw [adminAccess_ok _ s.auth net host hauth hnet,
        if_pos (cacheAfter_contains cache host)]
    simp only [grant, hcan2, hyes, if_true, hadmin2, runCmd, hin, if_true,
      upsertGrant_append_self s.grants email host db role
        (usernameFor email role) (usernameFor email role) hno']
  · simp only [List.filter_append]
    rw [List.filter_eq_nil_iff.2 (fun g hg => by simp [hno' g hg]),
      List.nil_append, List.filter_cons, if_pos (by simpa using hmatch)]
    rfl

/-- Witness for C9: fresh store with an allow rule for `e@x` on host `h`
db `d`, empty grants and external users; granting twice with passwords
`pw1`, `pw2`. -/
theorem grant_twice_deterministic_witness :
    ∃ st1 st2 : GrantState,
      grant ⟨⟨["h"], [⟨"e@x", "h", "read", ["d"]⟩], [], [], []⟩, [], []⟩
          (fun _ => NetStatus.ok) "e@x" "h" "d" "read" "pw1" =
        .ok (some ⟨usernameFor "e@x" "read", "pw1"⟩, st1) ∧
      grant st1 (fun _ => NetStatus.ok) "e@x" "h" "d" "read" "pw2" =
        .ok (some ⟨usernameFor "e@x" "read", "pw2"⟩, st2) ∧
      st2.store.grants.filter (fun g => grantRecMatches g "e@x" "h" "d" "read") =
        [⟨"e@x", "h", "d", "read", usernameFor "e@x" "read"⟩] :=
  grant_twice_deterministic ⟨["h"], [⟨"e@x", "h", "read", ["d"]⟩], [], [], []⟩ [] []
    (fun _ => NetStatus.ok) "e@x" "h" "d" "read" "pw1" "pw2" rfl rfl rfl rfl

/-- **C2.** If every occurrence of the fetch token in the store is
expired (`expires < now`), `grant_with_token` refuses: it returns `None`
and leaves the whole state unchanged — no credentials are issued, even
though the email documents holding the token still exist. -/
theorem grant_with_token_refuses_expired (st : GrantState)
    (net : String → NetStatus) (now : Nat)
    (token host db role password : String)
    (hexp : ∀ d ∈ st.store.tokens, ∀ t ∈ d.fetch,
      t.token = token → t.expires < now) :
    grant_with_token st net now token host db role password = .ok (none, st) := by
  have hfind : (st.store.tokens.find? fun d =>
      d.fetch.any fun t => t.token == token && decide (t.expires ≥ now)) = none := by
    refine List.find?_eq_none.2 fun d hd => ?_
    simp only [List.any_eq_true, Bool.and_eq_true, beq_iff_eq, decide_eq_true_eq]
    rintro ⟨t, ht, he, hge⟩
    exact absurd hge (Nat.not_le.2 (hexp d hd t ht he))
  simp [grant_with_token, email_from_fetch_token, hfind]

/-- Witness for C2: a document for `e@x` still holds fetch token `T`,
but it expired at time 3 < 5. -/
theorem grant_with_token_refuses_expired_witness :
    grant_with_token
        ⟨⟨["h"], [⟨"e@x", "h", "read", ["d"]⟩], [],
          [⟨"e@x", [], [⟨"T", 3⟩]⟩], []⟩, [], []⟩
        (fun _ => NetStatus.ok) 5 "T" "h" "d" "read" "pw" =
      .ok (none, ⟨⟨["h"], [⟨"e@x", "h", "read", ["d"]⟩], [],
          [⟨"e@x", [], [⟨"T", 3⟩]⟩], []⟩, [], []⟩) :=
  grant_with_token_refuses_expired
    ⟨⟨["h"], [⟨"e@x", "h", "read", ["d"]⟩], [],
      [⟨"e@x", [], [⟨"T", 3⟩]⟩], []⟩, [], []⟩
    (fun _ => NetStatus.ok) 5 "T" "h" "d" "read" "pw" (by decide)

/-- `sorted(doc["fetch"], key=lambda t: t["expires"])[-1]` for a
non-empty list: the element with maximal `expires`, preferring the
later-positioned one on ties (python's sort is stable, so the last
element of the ascending sort is the last of the maximal ones);
`none` for an empty list (where python raises `IndexError`). -/
def lastMaxByExpires : List Token → Option Token
  | [] => none
  | t :: ts =>
    match lastMaxByExpires ts with
    | none => some t
    | some m => if t.expires > m.expires then some t else some m

/-- The `update_one({_id: doc._id}, {$pull: {link: {token}}})` of
`Server.fetch_token_from_link`: remove every link entry carrying the
token from the first document that matched the find predicate (a link
entry with this token and `expires >= now`). -/
def pullLinkFromFirst (docs : List TokenDoc) (now : Nat) (link_token : String) :
    List TokenDoc :=
  match docs with
  | [] => []
  | d :: ds =>
    if d.link.any fun t => t.token == link_token && decide (t.expires ≥ now) then
      ⟨d.email, d.link.filter fun t => !(t.token == link_token), d.fetch⟩ :: ds
    else d :: pullLinkFromFirst ds now link_token

/-- `Server.fetch_token_from_link(link_token)`: find the first document
with an unexpired matching link entry; if none, return the message
"Link tokens expire. Request again.".  Otherwise take the
most-recently-expiring fetch token — `sorted(doc["fetch"], ...)[-1]`
raises `IndexError` when the fetch array is empty — then remove the link
token from the document and return the fetch-token message. -/
def fetch_token_from_link (s : Store) (now : Nat) (link_token : String) :
    Except String (String × Store) :=
  match s.tokens.find? fun d =>
      d.link.any fun t => t.token == link_token && decide (t.expires ≥ now) with
  | none => .ok ("Link tokens expire. Request again.", s)
  | some doc =>
    match lastMaxByExpires doc.fetch with
    | none => .error "IndexError: list index out of range"
    | some fetch =>
      .ok ("Fetch token: " ++ fetch.token ++ " (expires " ++
          toString fetch.expires ++ " UTC)",
        { s with tokens := pullLinkFromFirst s.tokens now link_token })

theorem find?_split {α : Type} (pre : List α) (d : α) (post : List α)
    (p : α → Bool) (hpre : ∀ x ∈ pre, p x = false) (hd : p d = true) :
    (pre ++ d :: post).find? p = some d := by
  induction pre with
  | nil => simp [List.find?_cons_of_pos, hd]
  | cons a pre ih =>
    rw [List.cons_append,
      List.find?_cons_of_neg _ (by simp [hpre a (List.mem_cons_self _ _)])]
    exact ih fun x hx => hpre x (List.mem_cons_of_mem _ hx)

theorem lastMaxByExpires_isSome (l : List Token) (h : l ≠ []) :
    (lastMaxByExpires l).isSome = true := by
  cases l with
  | nil => exact absurd rfl h
  | cons t ts =>
    rw [lastMaxByExpires]
    cases lastMaxByExpires ts with
    | none => rfl
    | some m =>
      by_cases hc : t.expires > m.expires
      · simp [hc]
      · simp [hc]

theorem pullLinkFromFirst_split (pre : List TokenDoc) (d : TokenDoc)
    (post : List TokenDoc) (now : Nat) (tok : String)
    (hpre : ∀ x ∈ pre,
      (x.link.any fun t => t.token == tok && decide (t.expires ≥ now)) = false)
    (hd : (d.link.any fun t => t.token == tok && decide (t.expires ≥ now)) = true) :
    pullLinkFromFirst (pre ++ d :: post) now tok =
      pre ++ (⟨d.email, d.link.filter fun t => !(t.token == tok), d.fetch⟩ :
        TokenDoc) :: post := by
  induction pre with
  | nil => simp [pullLinkFromFirst, hd]
  | cons a pre ih =>
    rw [List.cons_append, pullLinkFromFirst,
      if_neg (by simp [hpre a (List.mem_cons_self _ _)])]
    rw [ih fun x hx => hpre x (List.mem_cons_of_mem _ hx)]
    simp

/-- **C4 (amended).** For a link token present once and unexpired, in a
document whose fetch array is non-empty, the first resolution returns a
fetch-token message and removes the link token from the document; a
second resolution with the same token then returns the
expired/not-found message and changes nothing. -/
theorem link_token_single_use (s : Store) (now : Nat) (tok : String)
    (pre post : List TokenDoc) (d : TokenDoc) (e : Nat)
    (hsplit : s.tokens = pre ++ d :: post)
    (hpre : ∀ x ∈ pre, ∀ t ∈ x.link, t.token ≠ tok)
    (hpost : ∀ x ∈ post, ∀ t ∈ x.link, t.token ≠ tok)
    (hmem : (⟨tok, e⟩ : Token) ∈ d.link) (hexp : now ≤ e)
    (hfetch : d.fetch ≠ []) :
    ∃ ft : Token,
      fetch_token_from_link s now tok =
        .ok ("Fetch token: " ++ ft.token ++ " (expires " ++
          toString ft.expires ++ " UTC)",
          { s with tokens := pre ++
            (⟨d.email, d.link.filter fun t => !(t.token == tok), d.fetch⟩ :
              TokenDoc) :: post }) ∧
      fetch_token_from_link
          { s with tokens := pre ++
            (⟨d.email, d.link.filter fun t => !(t.token == tok), d.fetch⟩ :
              TokenDoc) :: post } now tok =
        .ok ("Link tokens expire. Request again.",
          { s with tokens := pre ++
            (⟨d.email, d.link.filter fun t => !(t.token == tok), d.fetch⟩ :
              TokenDoc) :: post }) := by
  have hdpred : (d.link.any fun t => t.token == tok && decide (t.expires ≥ now))
      = true :=
    List.any_eq_true.2 ⟨⟨tok, e⟩, hmem, by simp [hexp]⟩
  have hnopred : ∀ (x : TokenDoc), (∀ t ∈ x.link, t.token ≠ tok) →
      (x.link.any fun t => t.token == tok && decide (t.expires ≥ now)) = false :=
    fun x hx => List.any_eq_false.2 fun t ht => by simp [hx t ht]
  have hprepred : ∀ x ∈ pre,
      (x.link.any fun t => t.token == tok && decide (t.expires ≥ now)) = false :=
    fun x hx => hnopred x (hpre x hx)
  obtain ⟨ft, hft⟩ := Option.isSome_iff_exists.1 (lastMaxByExpires_isSome d.fetch hfetch)
  refine ⟨ft, ?_, ?_⟩
  · rw [fetch_token_from_link, hsplit, find?_split pre d post _ hprepred hdpred]
    simp only [hft, pullLinkFromFirst_split pre d post now tok hprepred hdpred]
  · rw [fetch_token_from_link]
    have hnone : (({ s with tokens := pre ++
        (⟨d.email, d.link.filter fun t => !(t.token == tok), d.fetch⟩ :
          TokenDoc) :: post } : Store).tokens.find? fun d' =>
          d'.link.any fun t => t.token == tok && decide (t.expires ≥ now)) =
        none := by
      refine List.find?_eq_none.2 fun x hx => ?_
      simp only [List.mem_append, List.mem_cons] at hx
      rcases hx with hx | rfl | hx
      · simp [hprepred x hx]
      · have hfl : ((d.link.filter fun t => !(t.token == tok)).any
            fun t => t.token == tok && decide (t.expires ≥ now)) = false :=
          List.any_eq_false.2 fun t ht => by
            have h2 := (List.mem_filter.1 ht).2
            simp only [Bool.not_eq_true'] at h2
            simp [h2]
        simp [hfl]
      · simp [hnopred x (hpost x hx)]
    rw [hnone]

/-- **C4 counterexample.** With an unexpired link token `L` in a document
whose fetch array is empty (e.g. after all fetch tokens were swept but
the link survived), the first resolution raises `IndexError` from
`sorted(doc["fetch"], ...)[-1]` before the link token is removed —
rather than consuming the token and returning a fetch token. -/
theorem fetch_token_from_link_empty_fetch_raises :
    fetch_token_from_link ⟨[], [], [], [⟨"e@x", [⟨"L", 10⟩], []⟩], []⟩ 5 "L" =
      .error "IndexError: list index out of range" := rfl

/-- Witness for C4 (amended): one document holding unexpired link `L`
and fetch token `F`; resolving `L` returns `F`'s message and strips `L`,
resolving again returns the expiry message. -/
theorem link_token_single_use_witness :
    ∃ ft : Token,
      fetch_token_from_link ⟨["h"], [], [], [⟨"e@x", [⟨"L", 10⟩], [⟨"F", 20⟩]⟩], []⟩
          5 "L" =
        .ok ("Fetch token: " ++ ft.token ++ " (expires " ++
          toString ft.expires ++ " UTC)",
          { (⟨["h"], [], [], [⟨"e@x", [⟨"L", 10⟩], [⟨"F", 20⟩]⟩], []⟩ : Store) with
            tokens := [] ++
            (⟨"e@x", [⟨"L", 10⟩].filter fun t => !(t.token == "L"), [⟨"F", 20⟩]⟩ :
              TokenDoc) :: [] }) ∧
      fetch_token_from_link
          { (⟨["h"], [], [], [⟨"e@x", [⟨"L", 10⟩], [⟨"F", 20⟩]⟩], []⟩ : Store) with
            tokens := [] ++
            (⟨"e@x", [⟨"L", 10⟩].filter fun t => !(t.token == "L"), [⟨"F", 20⟩]⟩ :
              TokenDoc) :: [] } 5 "L" =
        .ok ("Link tokens expire. Request again.",
          { (⟨["h"], [], [], [⟨"e@x", [⟨"L", 10⟩], [⟨"F", 20⟩]⟩], []⟩ : Store) with
            tokens := [] ++
            (⟨"e@x", [⟨"L", 10⟩].filter fun t => !(t.token == "L"), [⟨"F", 20⟩]⟩ :
              TokenDoc) :: [] }) :=
  link_token_single_use ⟨["h"], [], [], [⟨"e@x", [⟨"L", 10⟩], [⟨"F", 20⟩]⟩], []⟩
    5 "L" [] [] ⟨"e@x", [⟨"L", 10⟩], [⟨"F", 20⟩]⟩ 10 rfl (by simp) (by simp)
    (by simp) (by simp) (by simp)

/-- The grant filter of `Server.revoke_grants` after its wildcard
handling: fields set to `"*"` are popped from the mongo filter and so
match anything; `email` accepts no wildcard. -/
def revokeFilterMatches (g : GrantRec) (email host db role : String) : Bool :=
  g.email == email &&
  (host == "*" || g.host == host) &&
  (db == "*" || g.db == db) &&
  (role == "*" || g.role == role)

/-- The loop of `Server.revoke_grants`: for each matched grant record,
obtain the admin connection of its host and issue
`dropUser(username)` against its db.  There is no try/except around the
command: any `OperationFailure` (e.g. the user is already absent)
propagates, aborting the loop — and the rest of the method. -/
def dropUsersLoop (auth : List String) (net : String → NetStatus) :
    List GrantRec → ExtDB → List String → Except String (ExtDB × List String)
  | [], ext, cache => .ok (ext, cache)
  | g :: gs, ext, cache =>
    match adminAccess cache auth net g.host with
    | .error e => .error e
    | .ok cache' =>
      match runCmd ext g.host g.db .dropUser g.username with
      | .ok ext' => dropUsersLoop auth net gs ext' cache'
      | .error _ => .error "OperationFailure: user not found"

/-- `Server.revoke_grants(email, host, db, role)`: find the grant
records matching the filter, drop each record's user, then delete the
matched records with `delete_many`.  An exception from the loop reaches
the caller before `delete_many` runs. -/
def revoke_grants (st : GrantState) (net : String → NetStatus)
    (email host db role : String) : Except String GrantState :=
  match dropUsersLoop st.store.auth net
      (st.store.grants.filter fun g => revokeFilterMatches g email host db role)
      st.ext st.cache with
  | .error e => .error e
  | .ok (ext', cache') =>
    .ok ⟨{ st.store with grants :=
        st.store.grants.filter fun g =>
          !(revokeFilterMatches g email host db role) },
      ext', cache'⟩

/-- The `(host, db, username)` key of the external database user a grant
record tracks. -/
def grantKey (g : GrantRec) : String × String × String := (g.host, g.db, g.username)

theorem dropUsersLoop_ok (auth : List String) (net : String → NetStatus)
    (gs : List GrantRec) : ∀ (ext : ExtDB) (cache : List String),
    (∀ g ∈ gs, List.contains ext (grantKey g) = true ∧
      auth.contains g.host = true ∧ net g.host = NetStatus.ok) →
    ((gs.map grantKey).Nodup) →
    ∃ ext' cache', dropUsersLoop auth net gs ext cache = .ok (ext', cache') ∧
      ∀ k, List.contains ext' k = true →
        List.contains ext k = true ∧ k ∉ gs.map grantKey := by
  induction gs with
  | nil =>
    intro ext cache _ _
    exact ⟨ext, cache, rfl, fun k hk => ⟨hk, by simp⟩⟩
  | cons g gs ih =>
    intro ext cache hall hnodup
    obtain ⟨hin, hauth, hnet⟩ := hall g (List.mem_cons_self _ _)
    have hadmin := adminAccess_ok cache auth net g.host hauth hnet
    have hrun : runCmd ext g.host g.db .dropUser g.username =
        .ok (ext.filter fun k => !(k == grantKey g)) := by
      simp only [runCmd]
      rw [if_pos (by exact hin)]
      rfl
    simp only [List.map_cons, List.nodup_cons] at hnodup
    obtain ⟨hg_notin, hnodup'⟩ := hnodup
    have hall' : ∀ g' ∈ gs,
        List.contains (ext.filter fun k => !(k == grantKey g)) (grantKey g') = true ∧
        auth.contains g'.host = true ∧ net g'.host = NetStatus.ok := by
      intro g' hg'
      obtain ⟨hin', hauth', hnet'⟩ := hall g' (List.mem_cons_of_mem _ hg')
      refine ⟨?_, hauth', hnet'⟩
      have hne : grantKey g' ≠ grantKey g := by
        intro hEq
        exact hg_notin (hEq ▸ List.mem_map_of_mem grantKey hg')
      simp only [List.contains_eq_any_beq, List.any_eq_true] at hin' ⊢
      obtain ⟨k, hk, hkeq⟩ := hin'
      refine ⟨k, List.mem_filter.2 ⟨hk, ?_⟩, hkeq⟩
      have : k = grantKey g' := (by simpa using hkeq : grantKey g' = k).symm
      subst this
      simp [hne]
    obtain ⟨ext', cache', heq, hsub⟩ :=
      ih (ext.filter fun k => !(k == grantKey g)) _ hall' hnodup'
    refine ⟨ext', cache', ?_, ?_⟩
    · simp only [dropUsersLoop, hadmin, hrun]
      exact heq
    · intro k hk
      obtain ⟨hk1, hk2⟩ := hsub k hk
      simp only [List.contains_eq_any_beq, List.any_eq_true] at hk1
      obtain ⟨k', hk', hkeq⟩ := hk1
      obtain ⟨hk'mem, hk'ne⟩ := List.mem_filter.1 hk'
      have hkk : k = k' := by simpa using hkeq
      subst hkk
      refine ⟨?_, ?_⟩
      · simp only [List.contains_eq_any_beq, List.any_eq_true]
        exact ⟨k, hk'mem, by simp⟩
      · simp only [List.map_cons, List.mem_cons]
        rintro (hEq | hmem)
        · rw [hEq] at hk'ne
          simp at hk'ne
        · exact hk2 hmem

/-- **C7 (amended).** When every matched record's user exists and its
host's admin connection works, `revoke_grants` drops each matched user
and then deletes exactly the matched grant records; but a drop-user
failure (the user already absent) raises `OperationFailure`, which
propagates and aborts the method before any record is deleted. -/
theorem revoke_grants_spec (st : GrantState) (net : String → NetStatus)
    (email host db role : String)
    (hall : ∀ g ∈ st.store.grants.filter
        (fun g => revokeFilterMatches g email host db role),
      List.contains st.ext (grantKey g) = true ∧
      st.store.auth.contains g.host = true ∧ net g.host = NetStatus.ok)
    (hnodup : ((st.store.grants.filter
        (fun g => revokeFilterMatches g email host db role)).map grantKey).Nodup) :
    ∃ ext' cache',
      revoke_grants st net email host db role =
        .ok ⟨{ st.store with grants := (st.store.grants.filter
          fun g => !(revokeFilterMatches g email host db role)) }, ext', cache'⟩ ∧
      ∀ g ∈ st.store.grants.filter
          (fun g => revokeFilterMatches g email host db role),
        List.contains ext' (grantKey g) = false := by
  obtain ⟨ext', cache', heq, hsub⟩ :=
    dropUsersLoop_ok st.store.auth net _ st.ext st.cache hall hnodup
  refine ⟨ext', cache', ?_, ?_⟩
  · rw [revoke_grants, heq]
  · intro g hg
    by_contra hc
    rw [Bool.not_eq_false] at hc
    exact (hsub _ hc).2 (List.mem_map_of_mem grantKey hg)

/-- **C7 counterexample.** A single matched grant record whose database
user is already absent: the `dropUser` command raises
`OperationFailure`, and `revoke_grants` propagates it — the grant record
is not deleted, contradicting "a drop-user failure does not block
deletion of the bookkeeping records". -/
theorem revoke_grants_drop_failure_blocks :
    revoke_grants ⟨⟨["h"], [], [], [], [⟨"e@x", "h", "d", "read", "u"⟩]⟩, [], []⟩
        (fun _ => NetStatus.ok) "e@x" "*" "*" "*" =
      .error "OperationFailure: user not found" := rfl

/-- Witness for C7 (amended): one matched record whose user exists; the
user is dropped and the record deleted. -/
theorem revoke_grants_spec_witness :
    ∃ ext' cache',
      revoke_grants ⟨⟨["h"], [], [], [], [⟨"e@x", "h", "d", "read", "u"⟩]⟩,
          [("h", "d", "u")], []⟩ (fun _ => NetStatus.ok) "e@x" "*" "*" "*" =
        .ok ⟨{ (⟨["h"], [], [], [], [⟨"e@x", "h", "d", "read", "u"⟩]⟩ : Store) with
          grants := ([(⟨"e@x", "h", "d", "read", "u"⟩ : GrantRec)].filter
            fun g => !(revokeFilterMatches g "e@x" "*" "*" "*")) }, ext', cache'⟩ ∧
      ∀ g ∈ [(⟨"e@x", "h", "d", "read", "u"⟩ : GrantRec)].filter
          (fun g => revokeFilterMatches g "e@x" "*" "*" "*"),
        List.contains ext' (grantKey g) = false :=
  revoke_grants_spec ⟨⟨["h"], [], [], [], [⟨"e@x", "h", "d", "read", "u"⟩]⟩,
      [("h", "d", "u")], []⟩ (fun _ => NetStatus.ok) "e@x" "*" "*" "*"
    (by decide) (by decide)

/-- **C3 (amended).** Lookups on absent or expired data fail closed:
when every occurrence of the token in the store (if any) is expired —
which covers both an unknown token and a still-present expired one —
`email_from_fetch_token` returns `None`, `grant_with_token` returns
`None` without touching any state, `fetch_token_from_link` returns the
expiry message; and `generate_tokens` returns `False` without an allow
rule, rather than throwing.  But not every input yields an explicit outcome: `grant`
called with a role outside `{read, readWrite}` for a host with
configured admin credentials lets `can_grant`'s `ValueError` cross the
Server boundary. -/
theorem server_lookups_fail_closed (s : Store) (ext : ExtDB) (cache : List String)
    (net : String → NetStatus) (now : Nat)
    (token email host db role password : String)
    (linkTTL fetchTTL : Nat) (linkTok fetchTok : String)
    (habs : ∀ d ∈ s.tokens, (∀ t ∈ d.fetch, t.token = token → t.expires < now) ∧
      (∀ t ∈ d.link, t.token = token → t.expires < now))
    (hnoallow : ∀ r ∈ s.allow, r.email ≠ email) :
    email_from_fetch_token s now token false = none ∧
    grant_with_token ⟨s, ext, cache⟩ net now token host db role password =
      .ok (none, ⟨s, ext, cache⟩) ∧
    fetch_token_from_link s now token =
      .ok ("Link tokens expire. Request again.", s) ∧
    generate_tokens s now email linkTTL fetchTTL linkTok fetchTok = (false, s) ∧
    (host ∈ s.auth → role ≠ "read" → role ≠ "readWrite" →
      grant ⟨s, ext, cache⟩ net email host db role password =
        .error "role must be one of {read,readWrite}") := by
  have hfetchfind : (s.tokens.find? fun d =>
      d.fetch.any fun t => t.token == token && decide (t.expires ≥ now)) = none := by
    refine List.find?_eq_none.2 fun d hd => ?_
    simp only [List.any_eq_true, Bool.and_eq_true, beq_iff_eq, decide_eq_true_eq]
    rintro ⟨t, ht, he, hge⟩
    exact absurd hge (Nat.not_le.2 ((habs d hd).1 t ht he))
  have hlinkfind : (s.tokens.find? fun d =>
      d.link.any fun t => t.token == token && decide (t.expires ≥ now)) = none := by
    refine List.find?_eq_none.2 fun d hd => ?_
    simp only [List.any_eq_true, Bool.and_eq_true, beq_iff_eq, decide_eq_true_eq]
    rintro ⟨t, ht, he, hge⟩
    exact absurd hge (Nat.not_le.2 ((habs d hd).2 t ht he))
  have hany : (s.allow.any fun r => r.email == email) = false :=
    List.any_eq_false.2 fun r hr => by simp [hnoallow r hr]
  refine ⟨?_, ?_, ?_, ?_, ?_⟩
  · simp [email_from_fetch_token, hfetchfind]
  · simp [grant_with_token, email_from_fetch_token, hfetchfind]
  · rw [fetch_token_from_link, hlinkfind]
  · simp [generate_tokens, hany]
  · intro hhost hr1 hr2
    have hcan : can_grant s email host db role =
        .error "role must be one of {read,readWrite}" := by
      rw [can_grant, if_neg (by simp [hhost]),
        if_neg (by simp [hr1]), if_neg (by simp [hr2])]
    simp [grant, hcan]

/-- **C3 counterexample.** `grant` with the role `"admin"` for a host
with configured admin credentials does not return an outcome: the
`ValueError` raised inside `can_grant` propagates uncaught out of the
Server method. -/
theorem grant_invalid_role_raises :
    grant ⟨⟨["h"], [], [], [], []⟩, [], []⟩ (fun _ => NetStatus.ok)
        "e@x" "h" "d" "admin" "pw" =
      .error "role must be one of {read,readWrite}" := rfl

/-- Witness for C3 (amended) at a concrete input: the token `T` is still
present in the store's link and fetch arrays but expired at time 3 < 5,
the email has no allow rule, and the invalid role `"admin"` targets the
configured host `h`. -/
theorem server_lookups_fail_closed_witness :
    email_from_fetch_token ⟨["h"], [], [], [⟨"e@x", [⟨"T", 3⟩], [⟨"T", 3⟩]⟩], []⟩
        5 "T" false = none ∧
    grant_with_token ⟨⟨["h"], [], [], [⟨"e@x", [⟨"T", 3⟩], [⟨"T", 3⟩]⟩], []⟩, [], []⟩
        (fun _ => NetStatus.ok) 5 "T" "h" "d" "admin" "pw" =
      .ok (none, ⟨⟨["h"], [], [], [⟨"e@x", [⟨"T", 3⟩], [⟨"T", 3⟩]⟩], []⟩, [], []⟩) ∧
    fetch_token_from_link ⟨["h"], [], [], [⟨"e@x", [⟨"T", 3⟩], [⟨"T", 3⟩]⟩], []⟩
        5 "T" =
      .ok ("Link tokens expire. Request again.",
        ⟨["h"], [], [], [⟨"e@x", [⟨"T", 3⟩], [⟨"T", 3⟩]⟩], []⟩) ∧
    generate_tokens ⟨["h"], [], [], [⟨"e@x", [⟨"T", 3⟩], [⟨"T", 3⟩]⟩], []⟩
        5 "nobody@x" 3 7 "lt" "ft" =
      (false, ⟨["h"], [], [], [⟨"e@x", [⟨"T", 3⟩], [⟨"T", 3⟩]⟩], []⟩) ∧
    ("h" ∈ (⟨["h"], [], [], [⟨"e@x", [⟨"T", 3⟩], [⟨"T", 3⟩]⟩], []⟩ : Store).auth →
      "admin" ≠ "read" → "admin" ≠ "readWrite" →
      grant ⟨⟨["h"], [], [], [⟨"e@x", [⟨"T", 3⟩], [⟨"T", 3⟩]⟩], []⟩, [], []⟩
          (fun _ => NetStatus.ok) "nobody@x" "h" "d" "admin" "pw" =
        .error "role must be one of {read,readWrite}") :=
  server_lookups_fail_closed ⟨["h"], [], [], [⟨"e@x", [⟨"T", 3⟩], [⟨"T", 3⟩]⟩], []⟩
    [] [] (fun _ => NetStatus.ok) 5 "T" "nobody@x" "h" "d" "admin" "pw" 3 7 "lt" "ft"
    (by decide) (by decide)
